import Mathlib

/-!
Verification of the NBA-Analytics incremental ingestion engine
(`src/src/data/load_data.py`, current loader `NBALoader`, and the legacy
revision `src/load_data.py`).

The SQLite store is modelled as an association list from table name to a
list of rows; a pandas DataFrame is a list of rows, each row an
association list from column name to a SQL value.  The remote provider
(`nba_api` endpoint call plus `get_data_frames()[0]`) is an oracle
mapping an identity to an outcome: a payload, a raised exception, or a
`KeyboardInterrupt`.  Store-write failures (`DataFrame.to_sql` raising)
are modelled by an oracle `failWrite` on the payload being written.

`SLEEP_TIME` and `MAX_ERROR_TIMES` come from a `config` module that is
not part of the checked-out sources; they are treated as parameters
(the pacing delay is modelled as an abstract `pause` event in the run
trace, the budget as a `Nat` argument).
-/

/-- A dynamically typed SQLite cell value. -/
inductive SqlValue
  | int (n : Int)
  | text (s : String)
deriving DecidableEq

/-- One row of a DataFrame / of a SQLite table: column name to value. -/
structure Row where
  cells : List (String × SqlValue)
deriving DecidableEq

/-- A DataFrame or table contents: a list of rows in order. -/
abbrev Table := List Row

/-- The SQLite database: tables by name.  A name absent from the list is
a table that does not exist. -/
abbrev Store := List (String × Table)

/-- `if_exists` argument of `DataFrame.to_sql`. -/
inductive Mode
  | append
  | replace
deriving DecidableEq

/-- The Python exceptions relevant to the ingestion engine.
`pandasDatabaseError` is `pandas.errors.DatabaseError`, a subclass of
`OSError`; `sqlite3Error` is `sqlite3.Error`, a subclass of `Exception`
disjoint from `OSError`. -/
inductive PyError
  | sqlite3Error
  | pandasDatabaseError
  | providerError
  | keyboardInterrupt
deriving DecidableEq

/-- Outcome of one remote provider call (`endpoint(...)` followed by
`get_data_frames()[0]`): a payload, an exception, or a
`KeyboardInterrupt` raised during the call. -/
inductive ProviderResult
  | ok (df : Table)
  | err
  | interrupt
deriving DecidableEq

/-- Observable events of a fetch run, in chronological order: a pacing
delay (`self._pause()`, i.e. `time.sleep(SLEEP_TIME)`) or an outbound
remote call for one identity. -/
inductive Event
  | pause
  | call (id : SqlValue)
deriving DecidableEq

/-- How a fetch loop ended: ran through its whole work list, stopped on
the error budget, or stopped on `KeyboardInterrupt`. -/
inductive StopReason
  | completed
  | budget
  | interrupted
deriving DecidableEq

/-- Contents of a table, if it exists. -/
def findTable (s : Store) (n : String) : Option Table :=
  (s.find? (fun p => p.1 = n)).map (fun p => p.2)

/-- Set a table's contents, creating the table at the end of the store
if it does not exist. -/
def setTable (s : Store) (n : String) (t : Table) : Store :=
  match s with
  | [] => [(n, t)]
  | (m, u) :: rest => if m = n then (n, t) :: rest else (m, u) :: setTable rest n t

/-- `NBALoader._init_table_if_not_exists`: if `n` is absent, create it
with zero rows (`df.head(0).to_sql(..., if_exists="replace")`); the
sample payload only contributes the column layout, which the row-level
model does not track. -/
def initTableIfNotExists (s : Store) (n : String) (df : Table) : Store :=
  match findTable s n with
  | some _ => s
  | none => setTable s n []

/-- `DataFrame.to_sql(full_table_name, conn, if_exists=mode)` against an
existing table. -/
def writeTable (s : Store) (n : String) (df : Table) (mode : Mode) : Store :=
  match mode with
  | .append => setTable s n (((findTable s n).getD []) ++ df)
  | .replace => setTable s n df

/-- The values of column `col` down a table, in row order
(`df[col].tolist()`). -/
def columnValues (t : Table) (col : String) : List SqlValue :=
  t.filterMap (fun r => (r.cells.find? (fun c => c.1 = col)).map (fun c => c.2))

/-- `NBALoader._get_existing_ids` (current loader, src/src/data/load_data.py
lines 42-59): `SELECT DISTINCT {id_column} FROM {full_table_name}` via
`pd.read_sql`, answer collected into a set.  When the table does not
exist, `pd.read_sql` over a raw `sqlite3` connection wraps the
`sqlite3.OperationalError` ("no such table") into
`pandas.errors.DatabaseError`, a subclass of `OSError`; the handler
`except sqlite3.Error` does not match it, so the error propagates to the
caller instead of hitting the `return set()` branch. -/
def getExistingIds (s : Store) (tbl col : String) : Except PyError (List SqlValue) :=
  match findTable s tbl with
  | none => .error .pandasDatabaseError
  | some t => .ok (columnValues t col).dedup

/-- `NBALoader._save_to_sqlite` (current loader, src/src/data/load_data.py
lines 390-432).  An empty payload returns at once (logged skip).
Otherwise the table is initialized if absent, then written; a failing
`to_sql` raises `sqlite3.Error` after the init side effect already
happened.  The result is the store after the call's side effects plus
the exception it raises, if any. -/
def saveToSqlite (failWrite : Table → Bool) (s : Store) (df : Table)
    (category tableName : String) (mode : Mode) : Store × Option PyError :=
  if df = [] then (s, none)
  else
    let full := category ++ "_" ++ tableName
    let s1 := initTableIfNotExists s full df
    if failWrite df then (s1, some .sqlite3Error)
    else (writeTable s1 full df mode, none)

/-- Legacy loader `NBALoader._init_table` (src/load_data.py lines 41-53):
`CREATE TABLE IF NOT EXISTS {full_table_name} ({schema})` — creates the
table with zero rows when absent, from the predefined schema. -/
def initTableOld (s : Store) (n : String) : Store :=
  match findTable s n with
  | some _ => s
  | none => setTable s n []

/-- Legacy loader `NBALoader._get_existing_ids` (src/load_data.py lines
55-73): creates the table first via `_init_table`, then reads the
distinct ids; a residual `OperationalError`/`DatabaseError` is caught
and the empty set returned.  Returns the store after the init side
effect together with the id set. -/
def getExistingIdsOld (s : Store) (tbl col : String) : Store × List SqlValue :=
  let s1 := initTableOld s tbl
  (s1, (columnValues ((findTable s1 tbl).getD []) col).dedup)

/-- Legacy loader `NBALoader._save_to_sqlite` (src/load_data.py lines
75-98): builds the full name, runs `_init_table` unconditionally, then
skips empty payloads; a write failure is printed and swallowed, so the
function never raises. -/
def saveToSqliteOld (failWrite : Table → Bool) (s : Store) (df : Table)
    (category tableName : String) (mode : Mode) : Store :=
  let full := category ++ "_" ++ tableName
  let s1 := initTableOld s full
  if df = [] then s1
  else if failWrite df then s1
  else writeTable s1 full df mode

/-- Result of one `fetch_player_career` run: final store, the
success/error counters, the pause/call trace, and how the loop ended. -/
structure CareerRun where
  store : Store
  successCount : Nat
  errorCount : Nat
  trace : List Event
  stopped : StopReason
deriving DecidableEq

/-- The work list of `fetch_player_career`, src/src/data/load_data.py
line 106: `[pid for pid in player_ids if pid not in existing_ids]`. -/
def careerDelta (existing : List SqlValue) (playerIds : List Int) : List Int :=
  playerIds.filter (fun pid => !(decide (SqlValue.int pid ∈ existing)))

/-- The per-item loop of `fetch_player_career` (src/src/data/load_data.py
lines 120-142).  Per id: call the provider; on success save the payload
(append mode) and pause; `KeyboardInterrupt` breaks; any other exception
— from the call or from the save — is counted and the loop continues
without pausing. -/
def careerLoop (provider : Int → ProviderResult) (failWrite : Table → Bool) :
    List Int → Store → Nat → Nat → List Event → CareerRun
  | [], s, sc, ec, tr => ⟨s, sc, ec, tr, .completed⟩
  | pid :: rest, s, sc, ec, tr =>
    match provider pid with
    | .interrupt => ⟨s, sc, ec, tr ++ [.call (.int pid)], .interrupted⟩
    | .err => careerLoop provider failWrite rest s sc (ec + 1) (tr ++ [.call (.int pid)])
    | .ok df =>
      match saveToSqlite failWrite s df "player" "stats" .append with
      | (s1, some _) =>
        careerLoop provider failWrite rest s1 sc (ec + 1) (tr ++ [.call (.int pid)])
      | (s1, none) =>
        careerLoop provider failWrite rest s1 (sc + 1) ec
          (tr ++ [.call (.int pid), .pause])

/-- `NBALoader.fetch_player_career` (src/src/data/load_data.py lines
92-146): read the existing `PLAYER_ID`s of `player_stats` (an error
there propagates), filter the requested ids down to the delta, return
at once if it is empty, otherwise run the loop. -/
def fetchPlayerCareer (provider : Int → ProviderResult) (failWrite : Table → Bool)
    (s : Store) (playerIds : List Int) : Except PyError CareerRun :=
  match getExistingIds s "player_stats" "PLAYER_ID" with
  | .error e => .error e
  | .ok existing =>
    let newIds := careerDelta existing playerIds
    if newIds = [] then .ok ⟨s, 0, 0, [], .completed⟩
    else .ok (careerLoop provider failWrite newIds s 0 0 [])

/-- State of the `fetch_pbp_data` loop when it exits: the buffered
non-empty payloads (`all_new_data`), the error counter, the trace, and
the stop reason. -/
structure PbpLoopOut where
  buffered : List Table
  errorCount : Nat
  trace : List Event
  stopped : StopReason
deriving DecidableEq

/-- Result of one `fetch_pbp_data` run.  `raised` records an exception
escaping the function after side effects (the final store write is not
inside a try block); `store` is the store at that point. -/
structure PbpRun where
  store : Store
  errorCount : Nat
  buffered : List Table
  trace : List Event
  stopped : StopReason
  raised : Option PyError
deriving DecidableEq

/-- The work list of `fetch_pbp_data`, src/src/data/load_data.py line
314: `[gid for gid in game_ids if gid not in existing_pbp_ids]`. -/
def pbpDelta (existing : List SqlValue) (gameIds : List String) : List String :=
  gameIds.filter (fun gid => !(decide (SqlValue.text gid ∈ existing)))

/-- The per-game loop of `fetch_pbp_data` (src/src/data/load_data.py
lines 330-351).  Per game: if the error counter has reached the budget,
break; pause; call the provider; buffer a non-empty payload; an empty
payload is skipped silently; `KeyboardInterrupt` breaks; any other
exception is counted and the loop continues. -/
def pbpLoop (budget : Nat) (provider : String → ProviderResult) :
    List String → List Table → Nat → List Event → PbpLoopOut
  | [], buf, ec, tr => ⟨buf, ec, tr, .completed⟩
  | gid :: rest, buf, ec, tr =>
    if budget ≤ ec then ⟨buf, ec, tr, .budget⟩
    else
      match provider gid with
      | .interrupt => ⟨buf, ec, tr ++ [.pause, .call (.text gid)], .interrupted⟩
      | .err => pbpLoop budget provider rest buf (ec + 1) (tr ++ [.pause, .call (.text gid)])
      | .ok df =>
        if df = [] then pbpLoop budget provider rest buf ec (tr ++ [.pause, .call (.text gid)])
        else pbpLoop budget provider rest (buf ++ [df]) ec (tr ++ [.pause, .call (.text gid)])

/-- `NBALoader.fetch_pbp_data` (src/src/data/load_data.py lines
301-367).  Empty request returns at once; the existing `gameId`s of
`game_pbp` are read (an error there propagates; note the dead re-check
at line 316 tests `game_ids`, not `todo_game_ids`, and `game_ids` is
non-empty here); the loop runs over the delta; if anything was buffered
the concatenation is appended in one write whose failure is raised to
the caller. -/
def fetchPbpData (budget : Nat) (provider : String → ProviderResult)
    (failWrite : Table → Bool) (s : Store) (gameIds : List String) :
    Except PyError PbpRun :=
  if gameIds = [] then .ok ⟨s, 0, [], [], .completed, none⟩
  else
    match getExistingIds s "game_pbp" "gameId" with
    | .error e => .error e
    | .ok existing =>
      let todo := pbpDelta existing gameIds
      let out := pbpLoop budget provider todo [] 0 []
      if out.buffered = [] then
        .ok ⟨s, out.errorCount, out.buffered, out.trace, out.stopped, none⟩
      else
        match saveToSqlite failWrite s out.buffered.flatten "game" "pbp" .append with
        | (s1, e) => .ok ⟨s1, out.errorCount, out.buffered, out.trace, out.stopped, e⟩

/-- `NBALoader.fetch_all_players` (src/src/data/load_data.py lines
434-453): one provider call, then a `replace`-mode save of the payload
to `player_info`; no dedup read.  Any exception — provider failure,
`KeyboardInterrupt`, or a save failure — is re-raised to the caller. -/
def fetchAllPlayers (result : ProviderResult) (failWrite : Table → Bool)
    (s : Store) : Store × Option PyError :=
  match result with
  | .ok df => saveToSqlite failWrite s df "player" "info" .replace
  | .err => (s, some .providerError)
  | .interrupt => (s, some .keyboardInterrupt)

/-- The identities of the remote calls in a trace, in call order. -/
def callIds (tr : List Event) : List SqlValue :=
  tr.filterMap (fun e => match e with | .call v => some v | .pause => none)

/-- Number of remote calls in a trace. -/
def countCalls (tr : List Event) : Nat :=
  (callIds tr).length

/-- Pacing scanner: the flag records whether a call has completed with
no pause since.  A call arriving while the flag is set means two
consecutive remote calls with no pacing delay between them. -/
def pacedAux : Bool → List Event → Bool
  | _, [] => true
  | _, .pause :: rest => pacedAux false rest
  | pending, .call _ :: rest => !pending && pacedAux true rest

/-- The scanner state after consuming a trace. -/
def pendAfter : Bool → List Event → Bool
  | b, [] => b
  | _, .pause :: rest => pendAfter false rest
  | _, .call _ :: rest => pendAfter true rest

/-- A trace is paced when between any two remote calls a pacing delay
occurs. -/
def paced (tr : List Event) : Bool :=
  pacedAux false tr

/-- The payloads `fetch_pbp_data` buffers over a list of processed
games: the non-empty successful payloads, in fetch order. -/
def pbpBuffer (provider : String → ProviderResult) (l : List String) : List Table :=
  l.filterMap (fun g =>
    match provider g with
    | .ok df => if df = [] then none else some df
    | _ => none)

/-- Append rows to a table of the store (creating it if absent). -/
def appendTable (s : Store) (n : String) (rows : List Row) : Store :=
  setTable s n (((findTable s n).getD []) ++ rows)

theorem findTable_cons (m : String) (u : Table) (rest : Store) (n : String) :
    findTable ((m, u) :: rest) n = if m = n then some u else findTable rest n := by
  by_cases h : m = n <;> simp [findTable, List.find?_cons, h]

theorem setTable_find_self (s : Store) (n : String) (t : Table) :
    findTable (setTable s n t) n = some t := by
  induction s with
  | nil =>
    rw [show setTable [] n t = [(n, t)] from rfl, findTable_cons]
    simp
  | cons p rest ih =>
    obtain ⟨m, u⟩ := p
    by_cases h : m = n
    · rw [show setTable ((m, u) :: rest) n t = (n, t) :: rest by simp [setTable, h],
        findTable_cons]
      simp
    · rw [show setTable ((m, u) :: rest) n t = (m, u) :: setTable rest n t by
        simp [setTable, h], findTable_cons]
      simp [h, ih]

theorem setTable_find_other (s : Store) (n m : String) (t : Table) (h : m ≠ n) :
    findTable (setTable s n t) m = findTable s m := by
  induction s with
  | nil =>
    rw [show setTable [] n t = [(n, t)] from rfl, findTable_cons]
    simp [Ne.symm h, findTable]
  | cons p rest ih =>
    obtain ⟨mm, u⟩ := p
    by_cases hp : mm = n
    · subst hp
      rw [show setTable ((mm, u) :: rest) mm t = (mm, t) :: rest by simp [setTable],
        findTable_cons, findTable_cons, if_neg (Ne.symm h), if_neg (Ne.symm h)]
    · rw [show setTable ((mm, u) :: rest) n t = (mm, u) :: setTable rest n t by
        simp [setTable, hp], findTable_cons, findTable_cons, ih]

theorem setTable_self (s : Store) (n : String) (t : Table)
    (h : findTable s n = some t) : setTable s n t = s := by
  induction s with
  | nil => simp [findTable] at h
  | cons p rest ih =>
    obtain ⟨m, u⟩ := p
    rw [findTable_cons] at h
    by_cases hp : m = n
    · subst hp
      rw [if_pos rfl] at h
      obtain rfl := Option.some.inj h
      simp [setTable]
    · rw [if_neg hp] at h
      simp [setTable, hp, ih h]

theorem setTable_setTable (s : Store) (n : String) (t u : Table) :
    setTable (setTable s n t) n u = setTable s n u := by
  induction s with
  | nil => simp [setTable]
  | cons p rest ih =>
    obtain ⟨m, v⟩ := p
    by_cases hp : m = n
    · simp [setTable, hp]
    · simp [setTable, hp, ih]

theorem columnValues_append (a b : Table) (col : String) :
    columnValues (a ++ b) col = columnValues a col ++ columnValues b col := by
  simp [columnValues, List.filterMap_append]

theorem initTableIfNotExists_of_found (s : Store) (n : String) (df : Table)
    (t : Table) (h : findTable s n = some t) : initTableIfNotExists s n df = s := by
  simp [initTableIfNotExists, h]

theorem playerStatsName : ("player" ++ "_" ++ "stats" : String) = "player_stats" := by decide

theorem gamePbpName : ("game" ++ "_" ++ "pbp" : String) = "game_pbp" := by decide

theorem playerInfoName : ("player" ++ "_" ++ "info" : String) = "player_info" := by decide

theorem callIds_append (a b : List Event) : callIds (a ++ b) = callIds a ++ callIds b := by
  simp [callIds, List.filterMap_append]

theorem callIds_single_call (v : SqlValue) : callIds [.call v] = [v] := rfl

theorem callIds_call_pause (v : SqlValue) : callIds [.call v, .pause] = [v] := rfl

theorem callIds_pause_call (v : SqlValue) : callIds [.pause, .call v] = [v] := rfl

theorem callIds_nil : callIds [] = [] := rfl

theorem mem_careerDelta (E : List SqlValue) (ids : List Int) (pid : Int) :
    pid ∈ careerDelta E ids ↔ pid ∈ ids ∧ SqlValue.int pid ∉ E := by
  simp [careerDelta]

theorem mem_pbpDelta (E : List SqlValue) (gids : List String) (gid : String) :
    gid ∈ pbpDelta E gids ↔ gid ∈ gids ∧ SqlValue.text gid ∉ E := by
  simp [pbpDelta]

/-- The rows `fetch_player_career` persists over a work list: the
payloads of the successful calls whose payload is non-empty and whose
store write does not fail, concatenated in work-list order. -/
def careerPersisted (prov : Int → ProviderResult) (fw : Table → Bool)
    (l : List Int) : List Row :=
  (l.filterMap (fun i =>
    match prov i with
    | .ok df => if df = [] then none else if fw df then none else some df
    | _ => none)).flatten

/-- Whether one `fetch_player_career` work item ends in the error branch
(provider call raises, or the store write of a non-empty payload
raises). -/
def careerItemFails (prov : Int → ProviderResult) (fw : Table → Bool)
    (i : Int) : Bool :=
  match prov i with
  | .err => true
  | .ok df => !(decide (df = [])) && fw df
  | .interrupt => false

theorem careerLoop_callIds_prefix (prov : Int → ProviderResult) (fw : Table → Bool) :
    ∀ (l : List Int) (s : Store) (sc ec : Nat) (tr : List Event),
    ∃ k, callIds (careerLoop prov fw l s sc ec tr).trace
      = callIds tr ++ (l.take k).map SqlValue.int := by
  intro l
  induction l with
  | nil => exact fun s sc ec tr => ⟨0, by simp [careerLoop]⟩
  | cons pid rest ih =>
    intro s sc ec tr
    cases hp : prov pid with
    | interrupt =>
      refine ⟨1, ?_⟩
      simp [careerLoop, hp, callIds_append, callIds_single_call]
    | err =>
      obtain ⟨k, hk⟩ := ih s sc (ec + 1) (tr ++ [.call (.int pid)])
      refine ⟨k + 1, ?_⟩
      simp only [careerLoop, hp]
      rw [hk, callIds_append, callIds_single_call]
      simp [List.take_succ_cons]
    | ok df =>
      match hsv : saveToSqlite fw s df "player" "stats" .append with
      | (s1, none) =>
        obtain ⟨k, hk⟩ := ih s1 (sc + 1) ec (tr ++ [.call (.int pid), .pause])
        refine ⟨k + 1, ?_⟩
        simp only [careerLoop, hp, hsv]
        rw [hk, callIds_append, callIds_call_pause]
        simp [List.take_succ_cons]
      | (s1, some er) =>
        obtain ⟨k, hk⟩ := ih s1 sc (ec + 1) (tr ++ [.call (.int pid)])
        refine ⟨k + 1, ?_⟩
        simp only [careerLoop, hp, hsv]
        rw [hk, callIds_append, callIds_single_call]
        simp [List.take_succ_cons]

theorem careerLoop_spec (prov : Int → ProviderResult) (fw : Table → Bool) :
    ∀ (l : List Int) (s : Store) (sc ec : Nat) (tr : List Event) (R : Table),
    (∀ i ∈ l, prov i ≠ .interrupt) →
    findTable s "player_stats" = some R →
    (careerLoop prov fw l s sc ec tr).store
        = setTable s "player_stats" (R ++ careerPersisted prov fw l) ∧
    callIds (careerLoop prov fw l s sc ec tr).trace
        = callIds tr ++ l.map SqlValue.int ∧
    (careerLoop prov fw l s sc ec tr).errorCount
        = ec + l.countP (careerItemFails prov fw) ∧
    (careerLoop prov fw l s sc ec tr).stopped = .completed := by
  intro l
  induction l with
  | nil =>
    intro s sc ec tr R _ hT
    refine ⟨?_, by simp [careerLoop], by simp [careerLoop], by simp [careerLoop]⟩
    simp [careerLoop, careerPersisted, setTable_self s _ R hT]
  | cons pid rest ih =>
    intro s sc ec tr R hni hT
    have hnih : ∀ i ∈ rest, prov i ≠ .interrupt :=
      fun i hi => hni i (List.mem_cons_of_mem _ hi)
    have hTfull : findTable s ("player" ++ "_" ++ "stats") = some R := by
      rw [playerStatsName]; exact hT
    cases hp : prov pid with
    | interrupt => exact absurd hp (hni pid (List.mem_cons_self _ _))
    | err =>
      obtain ⟨h1, h2, h3, h4⟩ := ih s sc (ec + 1) (tr ++ [.call (.int pid)]) R hnih hT
      refine ⟨?_, ?_, ?_, ?_⟩
      · simp only [careerLoop, hp]
        rw [h1]
        simp [careerPersisted, List.filterMap_cons, hp]
      · simp only [careerLoop, hp]
        rw [h2, callIds_append, callIds_single_call]
        simp
      · simp only [careerLoop, hp]
        rw [h3]
        simp [careerItemFails, List.countP_cons, hp]
        omega
      · simp only [careerLoop, hp]
        exact h4
    | ok df =>
      by_cases hdf : df = []
      · subst hdf
        have hsv : saveToSqlite fw s [] "player" "stats" .append = (s, none) := by
          simp [saveToSqlite]
        obtain ⟨h1, h2, h3, h4⟩ :=
          ih s (sc + 1) ec (tr ++ [.call (.int pid), .pause]) R hnih hT
        refine ⟨?_, ?_, ?_, ?_⟩
        · simp only [careerLoop, hp, hsv]
          rw [h1]
          simp [careerPersisted, List.filterMap_cons, hp]
        · simp only [careerLoop, hp, hsv]
          rw [h2, callIds_append, callIds_call_pause]
          simp
        · simp only [careerLoop, hp, hsv]
          rw [h3]
          simp [careerItemFails, List.countP_cons, hp]
        · simp only [careerLoop, hp, hsv]
          exact h4
      · by_cases hfw : fw df
        · have hsv : saveToSqlite fw s df "player" "stats" .append
              = (s, some .sqlite3Error) := by
            simp [saveToSqlite, hdf, hfw, initTableIfNotExists_of_found s "player_stats" df R hT]
          obtain ⟨h1, h2, h3, h4⟩ := ih s sc (ec + 1) (tr ++ [.call (.int pid)]) R hnih hT
          refine ⟨?_, ?_, ?_, ?_⟩
          · simp only [careerLoop, hp, hsv]
            rw [h1]
            simp [careerPersisted, List.filterMap_cons, hp, hdf, hfw]
          · simp only [careerLoop, hp, hsv]
            rw [h2, callIds_append, callIds_single_call]
            simp
          · simp only [careerLoop, hp, hsv]
            rw [h3]
            simp [careerItemFails, List.countP_cons, hp, hdf, hfw]
            omega
          · simp only [careerLoop, hp, hsv]
            exact h4
        · have hsv : saveToSqlite fw s df "player" "stats" .append
              = (setTable s "player_stats" (R ++ df), none) := by
            simp [saveToSqlite, hdf, hfw, initTableIfNotExists_of_found s "player_stats" df R hT,
              writeTable, hT]
          have hT2 : findTable (setTable s "player_stats" (R ++ df)) "player_stats"
              = some (R ++ df) := setTable_find_self _ _ _
          obtain ⟨h1, h2, h3, h4⟩ := ih (setTable s "player_stats" (R ++ df)) (sc + 1) ec
            (tr ++ [.call (.int pid), .pause]) (R ++ df) hnih hT2
          refine ⟨?_, ?_, ?_, ?_⟩
          · simp only [careerLoop, hp, hsv]
            rw [h1, setTable_setTable]
            simp [careerPersisted, List.filterMap_cons, hp, hdf, hfw]
          · simp only [careerLoop, hp, hsv]
            rw [h2, callIds_append, callIds_call_pause]
            simp
          · simp only [careerLoop, hp, hsv]
            rw [h3]
            simp [careerItemFails, List.countP_cons, hp, hdf, hfw]
          · simp only [careerLoop, hp, hsv]
            exact h4

/-- The existing-identity set `fetch_player_career` reads from a
`player_stats` table with rows `R`. -/
def careerExisting (R : Table) : List SqlValue :=
  (columnValues R "PLAYER_ID").dedup

theorem fetchPlayerCareer_spec (prov : Int → ProviderResult) (fw : Table → Bool)
    (s : Store) (ids : List Int) (R : Table)
    (hT : findTable s "player_stats" = some R)
    (hni : ∀ i ∈ careerDelta (careerExisting R) ids, prov i ≠ .interrupt) :
    ∃ r, fetchPlayerCareer prov fw s ids = .ok r ∧
      r.store = setTable s "player_stats"
        (R ++ careerPersisted prov fw (careerDelta (careerExisting R) ids)) ∧
      callIds r.trace = (careerDelta (careerExisting R) ids).map SqlValue.int ∧
      r.errorCount = (careerDelta (careerExisting R) ids).countP (careerItemFails prov fw) ∧
      r.stopped = .completed := by
  have hE : getExistingIds s "player_stats" "PLAYER_ID" = .ok (careerExisting R) := by
    simp [getExistingIds, hT, careerExisting]
  by_cases hd : careerDelta (careerExisting R) ids = []
  · refine ⟨⟨s, 0, 0, [], .completed⟩, ?_, ?_, ?_, ?_, rfl⟩
    · simp [fetchPlayerCareer, hE, hd]
    · simp [hd, careerPersisted, setTable_self s _ R hT]
    · simp [hd, callIds]
    · simp [hd]
  · obtain ⟨h1, h2, h3, h4⟩ := careerLoop_spec prov fw
      (careerDelta (careerExisting R) ids) s 0 0 [] R hni hT
    refine ⟨_, ?_, h1, ?_, ?_, h4⟩
    · simp [fetchPlayerCareer, hE, hd]
    · rw [h2]
      simp [callIds]
    · rw [h3]
      simp

theorem pbpBuffer_mem_ne_nil (prov : String → ProviderResult) (l : List String) :
    ∀ t ∈ pbpBuffer prov l, t ≠ [] := by
  intro t ht
  simp only [pbpBuffer, List.mem_filterMap] at ht
  obtain ⟨g, _, hmatch⟩ := ht
  cases hp : prov g with
  | ok df =>
    rw [hp] at hmatch
    by_cases hdf : df = []
    · simp [hdf] at hmatch
    · simp [hdf] at hmatch
      exact hmatch ▸ hdf
  | err => rw [hp] at hmatch; simp at hmatch
  | interrupt => rw [hp] at hmatch; simp at hmatch

theorem flatten_ne_nil (L : List Table) (hL : L ≠ []) (h : ∀ t ∈ L, t ≠ []) :
    L.flatten ≠ [] := by
  cases L with
  | nil => exact absurd rfl hL
  | cons a l =>
    have ha : a ≠ [] := h a (List.mem_cons_self _ _)
    intro hc
    rw [List.flatten_cons] at hc
    exact ha (List.append_eq_nil.mp hc).1

theorem pbpLoop_spec (N : Nat) (prov : String → ProviderResult) :
    ∀ (l : List String) (buf : List Table) (ec : Nat) (tr : List Event),
    ∃ k, k ≤ l.length ∧
      (pbpLoop N prov l buf ec tr).buffered = buf ++ pbpBuffer prov (l.take k) ∧
      (pbpLoop N prov l buf ec tr).errorCount
        = ec + (l.take k).countP (fun g => decide (prov g = .err)) ∧
      callIds (pbpLoop N prov l buf ec tr).trace
        = callIds tr ++ (l.take k).map SqlValue.text ∧
      ((pbpLoop N prov l buf ec tr).stopped = .completed → k = l.length) := by
  intro l
  induction l with
  | nil =>
    intro buf ec tr
    exact ⟨0, Nat.le_refl _, by simp [pbpLoop, pbpBuffer], by simp [pbpLoop],
      by simp [pbpLoop], fun _ => rfl⟩
  | cons g rest ih =>
    intro buf ec tr
    by_cases hN : N ≤ ec
    · refine ⟨0, Nat.zero_le _, ?_, ?_, ?_, ?_⟩
      · simp [pbpLoop, hN, pbpBuffer]
      · simp [pbpLoop, hN]
      · simp [pbpLoop, hN]
      · simp [pbpLoop, hN]
    · cases hp : prov g with
      | interrupt =>
        refine ⟨1, by simp, ?_, ?_, ?_, ?_⟩
        · simp [pbpLoop, hN, hp, pbpBuffer, List.take_succ_cons]
        · simp [pbpLoop, hN, hp, List.take_succ_cons, List.countP_cons]
        · simp [pbpLoop, hN, hp, List.take_succ_cons, callIds_append, callIds_pause_call]
        · simp [pbpLoop, hN, hp]
      | err =>
        have hstep : pbpLoop N prov (g :: rest) buf ec tr
            = pbpLoop N prov rest buf (ec + 1) (tr ++ [.pause, .call (.text g)]) := by
          simp only [pbpLoop, hp]
          rw [if_neg hN]
        obtain ⟨k, hk, h1, h2, h3, h4⟩ := ih buf (ec + 1) (tr ++ [.pause, .call (.text g)])
        refine ⟨k + 1, by simpa using Nat.succ_le_succ hk, ?_, ?_, ?_, ?_⟩
        · rw [hstep, h1]
          simp [pbpBuffer, List.take_succ_cons, List.filterMap_cons, hp]
        · rw [hstep, h2]
          simp [List.take_succ_cons, List.countP_cons, hp]
          omega
        · rw [hstep, h3, callIds_append, callIds_pause_call]
          simp [List.take_succ_cons]
        · rw [hstep]
          intro hc
          simp [h4 hc]
      | ok df =>
        by_cases hdf : df = []
        · have hstep : pbpLoop N prov (g :: rest) buf ec tr
              = pbpLoop N prov rest buf ec (tr ++ [.pause, .call (.text g)]) := by
            simp only [pbpLoop, hp]
            rw [if_neg hN, if_pos hdf]
          obtain ⟨k, hk, h1, h2, h3, h4⟩ := ih buf ec (tr ++ [.pause, .call (.text g)])
          refine ⟨k + 1, by simpa using Nat.succ_le_succ hk, ?_, ?_, ?_, ?_⟩
          · rw [hstep, h1]
            simp [pbpBuffer, List.take_succ_cons, List.filterMap_cons, hp, hdf]
          · rw [hstep, h2]
            simp [List.take_succ_cons, List.countP_cons, hp]
          · rw [hstep, h3, callIds_append, callIds_pause_call]
            simp [List.take_succ_cons]
          · rw [hstep]
            intro hc
            simp [h4 hc]
        · have hstep : pbpLoop N prov (g :: rest) buf ec tr
              = pbpLoop N prov rest (buf ++ [df]) ec (tr ++ [.pause, .call (.text g)]) := by
            simp only [pbpLoop, hp]
            rw [if_neg hN, if_neg hdf]
          obtain ⟨k, hk, h1, h2, h3, h4⟩ :=
            ih (buf ++ [df]) ec (tr ++ [.pause, .call (.text g)])
          refine ⟨k + 1, by simpa using Nat.succ_le_succ hk, ?_, ?_, ?_, ?_⟩
          · rw [hstep, h1]
            simp [pbpBuffer, List.take_succ_cons, List.filterMap_cons, hp, hdf]
          · rw [hstep, h2]
            simp [List.take_succ_cons, List.countP_cons, hp]
          · rw [hstep, h3, callIds_append, callIds_pause_call]
            simp [List.take_succ_cons]
          · rw [hstep]
            intro hc
            simp [h4 hc]

/-- The existing-identity set `fetch_pbp_data` reads from a `game_pbp`
table with rows `R`. -/
def pbpExisting (R : Table) : List SqlValue :=
  (columnValues R "gameId").dedup

theorem fetchPbpData_spec (N : Nat) (prov : String → ProviderResult)
    (fw : Table → Bool) (s : Store) (gids : List String) (R : Table)
    (hT : findTable s "game_pbp" = some R) :
    ∃ r k, fetchPbpData N prov fw s gids = .ok r ∧
      k ≤ (pbpDelta (pbpExisting R) gids).length ∧
      r.buffered = pbpBuffer prov ((pbpDelta (pbpExisting R) gids).take k) ∧
      r.errorCount
        = ((pbpDelta (pbpExisting R) gids).take k).countP (fun g => decide (prov g = .err)) ∧
      callIds r.trace = ((pbpDelta (pbpExisting R) gids).take k).map SqlValue.text ∧
      (r.stopped = .completed → k = (pbpDelta (pbpExisting R) gids).length) ∧
      (r.buffered = [] → r.store = s ∧ r.raised = none) ∧
      (r.buffered ≠ [] → fw r.buffered.flatten = false →
        r.store = setTable s "game_pbp" (R ++ r.buffered.flatten) ∧ r.raised = none) ∧
      (r.buffered ≠ [] → fw r.buffered.flatten = true →
        r.store = s ∧ r.raised = some .sqlite3Error) := by
  by_cases hg : gids = []
  · subst hg
    refine ⟨⟨s, 0, [], [], .completed, none⟩, 0, by simp [fetchPbpData], by simp, ?_, ?_, ?_, ?_, ?_, ?_, ?_⟩
    · simp [pbpBuffer]
    · simp
    · simp [callIds]
    · simp [pbpDelta]
    · exact fun _ => ⟨rfl, rfl⟩
    · exact fun h => absurd rfl h
    · exact fun h => absurd rfl h
  · have hE : getExistingIds s "game_pbp" "gameId" = .ok (pbpExisting R) := by
      simp [getExistingIds, hT, pbpExisting]
    obtain ⟨k, hk, h1, h2, h3, h4⟩ :=
      pbpLoop_spec N prov (pbpDelta (pbpExisting R) gids) [] 0 []
    have hmem : ∀ t ∈ (pbpLoop N prov (pbpDelta (pbpExisting R) gids) [] 0 []).buffered,
        t ≠ [] := by
      rw [h1]
      simpa using pbpBuffer_mem_ne_nil prov _
    by_cases hbuf : (pbpLoop N prov (pbpDelta (pbpExisting R) gids) [] 0 []).buffered = []
    · refine ⟨⟨s, (pbpLoop N prov (pbpDelta (pbpExisting R) gids) [] 0 []).errorCount,
        (pbpLoop N prov (pbpDelta (pbpExisting R) gids) [] 0 []).buffered,
        (pbpLoop N prov (pbpDelta (pbpExisting R) gids) [] 0 []).trace,
        (pbpLoop N prov (pbpDelta (pbpExisting R) gids) [] 0 []).stopped, none⟩, k, ?_,
        hk, ?_, ?_, ?_, ?_, ?_, ?_, ?_⟩
      · simp [fetchPbpData, hg, hE, hbuf]
      · simpa using h1
      · simpa using h2
      · simpa using h3
      · exact h4
      · exact fun _ => ⟨rfl, rfl⟩
      · exact fun h => absurd hbuf h
      · exact fun h => absurd hbuf h
    · have hflat : (pbpLoop N prov (pbpDelta (pbpExisting R) gids) [] 0 []).buffered.flatten ≠ [] :=
        flatten_ne_nil _ hbuf hmem
      by_cases hfw : fw (pbpLoop N prov (pbpDelta (pbpExisting R) gids) [] 0 []).buffered.flatten
      · have hsv : saveToSqlite fw s
            (pbpLoop N prov (pbpDelta (pbpExisting R) gids) [] 0 []).buffered.flatten
            "game" "pbp" .append = (s, some .sqlite3Error) := by
          simp [saveToSqlite, hflat, hfw, initTableIfNotExists_of_found s "game_pbp" _ R hT]
        refine ⟨⟨s, (pbpLoop N prov (pbpDelta (pbpExisting R) gids) [] 0 []).errorCount,
          (pbpLoop N prov (pbpDelta (pbpExisting R) gids) [] 0 []).buffered,
          (pbpLoop N prov (pbpDelta (pbpExisting R) gids) [] 0 []).trace,
          (pbpLoop N prov (pbpDelta (pbpExisting R) gids) [] 0 []).stopped,
          some .sqlite3Error⟩, k, ?_, hk, ?_, ?_, ?_, ?_, ?_, ?_, ?_⟩
        · simp [fetchPbpData, hg, hE, hbuf, hsv]
        · simpa using h1
        · simpa using h2
        · simpa using h3
        · exact h4
        · exact fun h => absurd h hbuf
        · intro _ hc
          rw [hfw] at hc
          exact absurd hc (by simp)
        · exact fun _ _ => ⟨rfl, rfl⟩
      · have hsv : saveToSqlite fw s
            (pbpLoop N prov (pbpDelta (pbpExisting R) gids) [] 0 []).buffered.flatten
            "game" "pbp" .append
            = (setTable s "game_pbp"
                (R ++ (pbpLoop N prov (pbpDelta (pbpExisting R) gids) [] 0 []).buffered.flatten),
              none) := by
          simp [saveToSqlite, hflat, hfw,
            initTableIfNotExists_of_found s "game_pbp" _ R hT, writeTable, hT]
        refine ⟨⟨setTable s "game_pbp"
            (R ++ (pbpLoop N prov (pbpDelta (pbpExisting R) gids) [] 0 []).buffered.flatten),
          (pbpLoop N prov (pbpDelta (pbpExisting R) gids) [] 0 []).errorCount,
          (pbpLoop N prov (pbpDelta (pbpExisting R) gids) [] 0 []).buffered,
          (pbpLoop N prov (pbpDelta (pbpExisting R) gids) [] 0 []).trace,
          (pbpLoop N prov (pbpDelta (pbpExisting R) gids) [] 0 []).stopped,
          none⟩, k, ?_, hk, ?_, ?_, ?_, ?_, ?_, ?_, ?_⟩
        · simp [fetchPbpData, hg, hE, hbuf, hsv]
        · simpa using h1
        · simpa using h2
        · simpa using h3
        · exact h4
        · exact fun h => absurd h hbuf
        · exact fun _ _ => ⟨rfl, rfl⟩
        · intro _ hc
          rw [hc] at hfw
          exact absurd rfl hfw

/-- The trace of a run of consecutive failing loop iterations of
`fetch_pbp_data`: pause then call, per game. -/
def pauseCalls (l : List String) : List Event :=
  (l.map (fun g => [Event.pause, Event.call (.text g)])).flatten

theorem callIds_pauseCalls (l : List String) :
    callIds (pauseCalls l) = l.map SqlValue.text := by
  induction l with
  | nil => rfl
  | cons g rest ih =>
    rw [show pauseCalls (g :: rest) = [Event.pause, Event.call (.text g)] ++ pauseCalls rest by
      simp [pauseCalls], callIds_append, callIds_pause_call]
    simp [ih]

theorem pbpLoop_allFail (N : Nat) (prov : String → ProviderResult) :
    ∀ (l : List String) (buf : List Table) (ec : Nat) (tr : List Event),
    (∀ g ∈ l, prov g = .err) → ec < N → N - ec < l.length →
    pbpLoop N prov l buf ec tr
      = ⟨buf, N, tr ++ pauseCalls (l.take (N - ec)), .budget⟩ := by
  intro l
  induction l with
  | nil =>
    intro buf ec tr _ _ hlen
    simp at hlen
  | cons g rest ih =>
    intro buf ec tr hall hec hlen
    have hp : prov g = .err := hall g (List.mem_cons_self _ _)
    have hstep : pbpLoop N prov (g :: rest) buf ec tr
        = pbpLoop N prov rest buf (ec + 1) (tr ++ [.pause, .call (.text g)]) := by
      simp only [pbpLoop, hp]
      rw [if_neg (Nat.not_le.mpr hec)]
    by_cases hec1 : ec + 1 < N
    · have hlen1 : N - (ec + 1) < rest.length := by
        simp only [List.length_cons] at hlen
        omega
      rw [hstep, ih buf (ec + 1) _ (fun x hx => hall x (List.mem_cons_of_mem _ hx)) hec1 hlen1]
      have hNe : N - ec = (N - (ec + 1)) + 1 := by omega
      rw [hNe]
      simp [List.take_succ_cons, pauseCalls, List.append_assoc]
    · have hN1 : N - ec = 1 := by omega
      cases rest with
      | nil =>
        simp only [List.length_cons, List.length_nil] at hlen
        omega
      | cons g2 rest2 =>
        rw [hstep]
        have hdone : pbpLoop N prov (g2 :: rest2) buf (ec + 1)
            (tr ++ [.pause, .call (.text g)])
            = ⟨buf, ec + 1, tr ++ [.pause, .call (.text g)], .budget⟩ := by
          simp only [pbpLoop]
          rw [if_pos (by omega)]
        rw [hdone, hN1]
        have hNec : N = ec + 1 := by omega
        simp [hNec, pauseCalls]

/-- A game whose fetch contributes nothing to the buffer: the call
raises, is interrupted, or returns an empty payload. -/
def pbpNonBuffering (prov : String → ProviderResult) (g : String) : Bool :=
  match prov g with
  | .ok df => decide (df = [])
  | .err => true
  | .interrupt => true

theorem pbpLoop_noBuffer (N : Nat) (prov : String → ProviderResult) :
    ∀ (l : List String) (buf : List Table) (ec : Nat) (tr : List Event),
    (∀ g ∈ l, pbpNonBuffering prov g = true) →
    (pbpLoop N prov l buf ec tr).buffered = buf := by
  intro l
  induction l with
  | nil => intro buf ec tr _; rfl
  | cons g rest ih =>
    intro buf ec tr hall
    by_cases hN : N ≤ ec
    · simp [pbpLoop, hN]
    · have hg := hall g (List.mem_cons_self _ _)
      have hrest : ∀ x ∈ rest, pbpNonBuffering prov x = true :=
        fun x hx => hall x (List.mem_cons_of_mem _ hx)
      cases hp : prov g with
      | interrupt => simp [pbpLoop, hN, hp]
      | err =>
        have hstep : pbpLoop N prov (g :: rest) buf ec tr
            = pbpLoop N prov rest buf (ec + 1) (tr ++ [.pause, .call (.text g)]) := by
          simp only [pbpLoop, hp]
          rw [if_neg hN]
        rw [hstep]
        exact ih buf (ec + 1) _ hrest
      | ok df =>
        have hdf : df = [] := by
          simpa [pbpNonBuffering, hp] using hg
        have hstep : pbpLoop N prov (g :: rest) buf ec tr
            = pbpLoop N prov rest buf ec (tr ++ [.pause, .call (.text g)]) := by
          simp only [pbpLoop, hp]
          rw [if_neg hN, if_pos hdf]
        rw [hstep]
        exact ih buf ec _ hrest

theorem pacedAux_append (xs ys : List Event) :
    ∀ b, pacedAux b (xs ++ ys) = (pacedAux b xs && pacedAux (pendAfter b xs) ys) := by
  induction xs with
  | nil => intro b; simp [pacedAux, pendAfter]
  | cons e rest ih =>
    intro b
    cases e with
    | pause => simp [pacedAux, pendAfter, ih]
    | call v => simp [pacedAux, pendAfter, ih, Bool.and_assoc]

theorem pendAfter_append (xs ys : List Event) :
    ∀ b, pendAfter b (xs ++ ys) = pendAfter (pendAfter b xs) ys := by
  induction xs with
  | nil => intro b; simp [pendAfter]
  | cons e rest ih =>
    intro b
    cases e with
    | pause => simp [pendAfter, ih]
    | call v => simp [pendAfter, ih]

theorem pbpLoop_paced (N : Nat) (prov : String → ProviderResult) :
    ∀ (l : List String) (buf : List Table) (ec : Nat) (tr : List Event),
    paced tr = true → paced (pbpLoop N prov l buf ec tr).trace = true := by
  intro l
  induction l with
  | nil => intro buf ec tr htr; exact htr
  | cons g rest ih =>
    intro buf ec tr htr
    have hblock : paced (tr ++ [.pause, .call (.text g)]) = true := by
      rw [paced, pacedAux_append]
      simp only [paced] at htr
      simp [htr, pacedAux]
    by_cases hN : N ≤ ec
    · simp [pbpLoop, hN]
      exact htr
    · cases hp : prov g with
      | interrupt =>
        simp only [pbpLoop, hp]
        rw [if_neg hN]
        exact hblock
      | err =>
        have hstep : pbpLoop N prov (g :: rest) buf ec tr
            = pbpLoop N prov rest buf (ec + 1) (tr ++ [.pause, .call (.text g)]) := by
          simp only [pbpLoop, hp]
          rw [if_neg hN]
        rw [hstep]
        exact ih buf (ec + 1) _ hblock
      | ok df =>
        by_cases hdf : df = []
        · have hstep : pbpLoop N prov (g :: rest) buf ec tr
              = pbpLoop N prov rest buf ec (tr ++ [.pause, .call (.text g)]) := by
            simp only [pbpLoop, hp]
            rw [if_neg hN, if_pos hdf]
          rw [hstep]
          exact ih buf ec _ hblock
        · have hstep : pbpLoop N prov (g :: rest) buf ec tr
              = pbpLoop N prov rest (buf ++ [df]) ec (tr ++ [.pause, .call (.text g)]) := by
            simp only [pbpLoop, hp]
            rw [if_neg hN, if_neg hdf]
          rw [hstep]
          exact ih (buf ++ [df]) ec _ hblock

theorem saveToSqlite_snd_none (fw : Table → Bool) (s : Store) (df : Table)
    (c t : String) (m : Mode) (h : df = [] ∨ fw df = false) :
    (saveToSqlite fw s df c t m).2 = none := by
  by_cases hdf : df = []
  · simp [saveToSqlite, hdf]
  · cases h with
    | inl h0 => exact absurd h0 hdf
    | inr hfw => simp [saveToSqlite, hdf, hfw]

theorem careerLoop_paced_success (prov : Int → ProviderResult) (fw : Table → Bool) :
    ∀ (l : List Int) (s : Store) (sc ec : Nat) (tr : List Event),
    (∀ i ∈ l, ∃ df, prov i = .ok df ∧ (df = [] ∨ fw df = false)) →
    paced tr = true → pendAfter false tr = false →
    paced (careerLoop prov fw l s sc ec tr).trace = true := by
  intro l
  induction l with
  | nil => intro s sc ec tr _ htr _; exact htr
  | cons pid rest ih =>
    intro s sc ec tr hall htr hpend
    obtain ⟨df, hp, hok⟩ := hall pid (List.mem_cons_self _ _)
    have hrest : ∀ i ∈ rest, ∃ df, prov i = .ok df ∧ (df = [] ∨ fw df = false) :=
      fun i hi => hall i (List.mem_cons_of_mem _ hi)
    match hsv : saveToSqlite fw s df "player" "stats" .append with
    | (s1, e) =>
      have he : e = none := by
        have := saveToSqlite_snd_none fw s df "player" "stats" .append hok
        rw [hsv] at this
        exact this
      subst he
      have hstep : careerLoop prov fw (pid :: rest) s sc ec tr
          = careerLoop prov fw rest s1 (sc + 1) ec
            (tr ++ [.call (.int pid), .pause]) := by
        simp only [careerLoop, hp, hsv]
      rw [hstep]
      refine ih s1 (sc + 1) ec _ hrest ?_ ?_
      · rw [paced, pacedAux_append]
        simp only [paced] at htr
        simp [htr, pacedAux, hpend]
      · rw [pendAfter_append, hpend]
        simp [pendAfter]

theorem columnValues_mem_flatten (L : List Table) (t : Table) (col : String)
    (ht : t ∈ L) (v : SqlValue) (hv : v ∈ columnValues t col) :
    v ∈ columnValues L.flatten col := by
  induction L with
  | nil => simp at ht
  | cons a Lr ih =>
    rw [List.flatten_cons, columnValues_append]
    rcases List.mem_cons.mp ht with h | h
    · exact List.mem_append_left _ (h ▸ hv)
    · exact List.mem_append_right _ (ih h)

/-- Run record of a career fetch, with a dummy on the error side (used
only to name the successful run of a concrete evaluation). -/
def careerRunOf (x : Except PyError CareerRun) : CareerRun :=
  match x with
  | .ok r => r
  | .error _ => ⟨[], 0, 0, [], .completed⟩

/-- Run record of a play-by-play fetch, with a dummy on the error side. -/
def pbpRunOf (x : Except PyError PbpRun) : PbpRun :=
  match x with
  | .ok r => r
  | .error _ => ⟨[], 0, [], [], .completed, none⟩

/-- Number of remote calls a career fetch issued. -/
def careerCallCount (x : Except PyError CareerRun) : Nat :=
  countCalls (careerRunOf x).trace

/-- Final store of a career fetch, when it returned normally. -/
def careerStoreOf (x : Except PyError CareerRun) : Option Store :=
  match x with
  | .ok r => some r.store
  | .error _ => none

/-- Whether the trace of a career fetch is paced. -/
def careerPacedOf (x : Except PyError CareerRun) : Bool :=
  paced (careerRunOf x).trace

/-- Number of remote calls a play-by-play fetch issued. -/
def pbpCallCount (x : Except PyError PbpRun) : Nat :=
  countCalls (pbpRunOf x).trace

/-- The exception a play-by-play fetch raised to its caller, if any. -/
def pbpRaisedOf (x : Except PyError PbpRun) : Option PyError :=
  match x with
  | .ok r => r.raised
  | .error e => some e

/-- A one-cell `player_stats` payload row carrying its player id. -/
def rowP (pid : Int) : Row := ⟨[("PLAYER_ID", .int pid)]⟩

/-- A one-cell `game_pbp` payload row carrying its game id. -/
def rowG (gid : String) : Row := ⟨[("gameId", .text gid)]⟩

/-- A store holding only an empty `player_stats` table. -/
def psStore : Store := [("player_stats", [])]

/-- A store holding only an empty `game_pbp` table. -/
def gpStore : Store := [("game_pbp", [])]

/-- A remote provider whose every player call raises. -/
def provFailI : Int → ProviderResult := fun _ => .err

/-- A remote provider whose every game call raises. -/
def provFailS : String → ProviderResult := fun _ => .err

/-- A remote provider returning one career row per player. -/
def provOkP : Int → ProviderResult := fun i => .ok [rowP i]

/-- A remote provider returning one play-by-play row per game. -/
def provOkG : String → ProviderResult := fun g => .ok [rowG g]

/-- A store write that always succeeds. -/
def fwNever : Table → Bool := fun _ => false

/-- A store write that always raises. -/
def fwAlways : Table → Bool := fun _ => true

def provC6 : Int → ProviderResult := fun i => if i = 1 then .err else .ok [rowP i]

def provC10 : String → ProviderResult := fun g => if g = "a" then .ok [rowG g] else .err


/-- C1: Dedup correctness — in both append-mode fetch operations
(`fetch_player_career` over player ids, `fetch_pbp_data` over game ids)
every identity already present in the target table's identity column is
excluded from the computed work list, and the remote provider is called
only for identities of the delta set, in caller-supplied order (the
calls form a prefix of the delta list). -/
theorem claim1_dedup_correctness :
    (∀ (prov : Int → ProviderResult) (fw : Table → Bool) (s : Store) (ids : List Int)
      (E : List SqlValue) (r : CareerRun),
      getExistingIds s "player_stats" "PLAYER_ID" = .ok E →
      fetchPlayerCareer prov fw s ids = .ok r →
      (∀ pid ∈ ids, SqlValue.int pid ∈ E → pid ∉ careerDelta E ids) ∧
      callIds r.trace <+: (careerDelta E ids).map SqlValue.int) ∧
    (∀ (N : Nat) (prov : String → ProviderResult) (fw : Table → Bool) (s : Store)
      (gids : List String) (E : List SqlValue) (r : PbpRun),
      getExistingIds s "game_pbp" "gameId" = .ok E →
      fetchPbpData N prov fw s gids = .ok r →
      (∀ gid ∈ gids, SqlValue.text gid ∈ E → gid ∉ pbpDelta E gids) ∧
      callIds r.trace <+: (pbpDelta E gids).map SqlValue.text) := by
  constructor
  · intro prov fw s ids E r hE hr
    refine ⟨fun pid _ hmem hd => ((mem_careerDelta E ids pid).mp hd).2 hmem, ?_⟩
    simp only [fetchPlayerCareer, hE] at hr
    by_cases hd : careerDelta E ids = []
    · rw [if_pos hd] at hr
      obtain rfl := Except.ok.inj hr
      simp only [callIds_nil]
      exact List.nil_prefix
    · rw [if_neg hd] at hr
      obtain rfl := Except.ok.inj hr
      obtain ⟨k, hk⟩ := careerLoop_callIds_prefix prov fw (careerDelta E ids) s 0 0 []
      rw [hk]
      simp only [callIds_nil, List.nil_append]
      exact List.IsPrefix.map _ (List.take_prefix k _)
  · intro N prov fw s gids E r hE hr
    refine ⟨fun gid _ hmem hd => ((mem_pbpDelta E gids gid).mp hd).2 hmem, ?_⟩
    cases hfind : findTable s "game_pbp" with
    | none => rw [getExistingIds, hfind] at hE; simp at hE
    | some R =>
      have hEeq : E = pbpExisting R := by
        rw [getExistingIds, hfind] at hE
        exact (Except.ok.inj hE).symm
      subst hEeq
      obtain ⟨r2, k, hfr, hk, hb, herr, hcall, hstop, h0, h1, h2⟩ :=
        fetchPbpData_spec N prov fw s gids R hfind
      rw [hr] at hfr
      obtain rfl := Except.ok.inj hfr
      rw [hcall]
      exact List.IsPrefix.map _ (List.take_prefix k _)

theorem claim1_dedup_correctness_w :
    callIds (careerRunOf (fetchPlayerCareer provFailI fwNever psStore [2544])).trace
      <+: (careerDelta [] [2544]).map SqlValue.int ∧
    callIds (pbpRunOf (fetchPbpData 3 provFailS fwNever gpStore ["001"])).trace
      <+: (pbpDelta [] ["001"]).map SqlValue.text := by
  constructor
  · exact (claim1_dedup_correctness.1 provFailI fwNever psStore [2544] []
      (careerRunOf (fetchPlayerCareer provFailI fwNever psStore [2544])) rfl rfl).2
  · exact (claim1_dedup_correctness.2 3 provFailS fwNever gpStore ["001"] []
      (pbpRunOf (fetchPbpData 3 provFailS fwNever gpStore ["001"])) rfl rfl).2

/-- C4: on a brand-new store the existing-identity read does not return
the empty set: `pd.read_sql` wraps the missing-table error in
`pandas.errors.DatabaseError`, which `except sqlite3.Error` does not
catch, so `_get_existing_ids` raises and `fetch_player_career` crashes
before any remote call; the legacy revision creates the table first and
returns the empty set as the spec describes. -/
theorem claim4_bootstrap_codebug :
    getExistingIds [] "player_stats" "PLAYER_ID" = .error .pandasDatabaseError ∧
    fetchPlayerCareer provOkP fwNever [] [2544] = .error .pandasDatabaseError ∧
    (getExistingIdsOld [] "player_stats" "PLAYER_ID").2 = [] :=
  ⟨rfl, rfl, rfl⟩

theorem claim7_cex :
    findTable (fetchAllPlayers (.ok []) fwNever
      (fetchAllPlayers (.ok [rowP 1]) fwNever []).1).1 "player_info" = some [rowP 1] ∧
    ([rowP 1] : Table) ≠ ([] : Table) :=
  ⟨by decide, by decide⟩

/-- C7 (amended): `fetch_all_players` writes `player_info` with replace
mode on every invocation and never consults the dedup index, so after a
run with payload P followed by a run with a non-empty payload Q whose
write succeeds, the table holds exactly Q's rows — regardless of P and
of prior store contents.  When Q is empty the save operation's
empty-payload no-op leaves the previous contents in place. -/
theorem claim7_replace_overwrite_amended :
    ∀ (fw : Table → Bool) (s : Store) (P Q : Table),
      Q ≠ [] → fw Q = false →
      findTable (fetchAllPlayers (.ok Q) fw s).1 "player_info" = some Q ∧
      findTable (fetchAllPlayers (.ok Q) fw
        (fetchAllPlayers (.ok P) fw s).1).1 "player_info" = some Q := by
  intro fw s P Q hQ hfw
  have key : ∀ s' : Store,
      findTable (fetchAllPlayers (.ok Q) fw s').1 "player_info" = some Q := by
    intro s'
    simp [fetchAllPlayers, saveToSqlite, hQ, hfw, writeTable, setTable_find_self]
  exact ⟨key s, key _⟩

theorem claim7_replace_overwrite_amended_w :
    findTable (fetchAllPlayers (.ok [rowP 2]) fwNever psStore).1 "player_info"
      = some [rowP 2] ∧
    findTable (fetchAllPlayers (.ok [rowP 2]) fwNever
      (fetchAllPlayers (.ok [rowP 1]) fwNever psStore).1).1 "player_info"
      = some [rowP 2] :=
  claim7_replace_overwrite_amended fwNever psStore [rowP 1] [rowP 2] (by decide) (by decide)

theorem claim8_cex :
    saveToSqliteOld fwNever [] [] "player" "info" .append = [("player_info", [])] ∧
    ([("player_info", [])] : Store) ≠ [] :=
  ⟨by decide, by decide⟩

/-- C8 (amended): an empty-payload save returns without raising in both
loader revisions; in the current loader the store is left entirely
unchanged, while the legacy loader leaves every table's rows unchanged
(the target keeps its rows, other tables are untouched) but first
creates the missing target table with zero rows. -/
theorem claim8_empty_payload_amended :
    (∀ (fw : Table → Bool) (s : Store) (c t : String) (m : Mode),
      saveToSqlite fw s [] c t m = (s, none)) ∧
    (∀ (fw : Table → Bool) (s : Store) (c t : String) (m : Mode) (n : String),
      (n ≠ c ++ "_" ++ t →
        findTable (saveToSqliteOld fw s [] c t m) n = findTable s n) ∧
      findTable (saveToSqliteOld fw s [] c t m) (c ++ "_" ++ t)
        = some ((findTable s (c ++ "_" ++ t)).getD [])) := by
  constructor
  · intro fw s c t m
    simp [saveToSqlite]
  · intro fw s c t m n
    constructor
    · intro hn
      cases hf : findTable s (c ++ "_" ++ t) with
      | some u => simp [saveToSqliteOld, initTableOld, hf]
      | none => simp [saveToSqliteOld, initTableOld, hf, setTable_find_other s _ n [] hn]
    · cases hf : findTable s (c ++ "_" ++ t) with
      | some u => simp [saveToSqliteOld, initTableOld, hf]
      | none => simp [saveToSqliteOld, initTableOld, hf, setTable_find_self]

theorem claim8_empty_payload_amended_w :
    saveToSqlite fwNever psStore [] "player" "info" Mode.append = (psStore, none) ∧
    findTable (saveToSqliteOld fwNever psStore [] "player" "info" Mode.append) "player_stats"
      = findTable psStore "player_stats" :=
  ⟨claim8_empty_payload_amended.1 fwNever psStore "player" "info" .append,
    (claim8_empty_payload_amended.2 fwNever psStore "player" "info" .append
      "player_stats").1 (by decide)⟩

theorem claim3_cex :
    careerCallCount (fetchPlayerCareer provFailI fwNever psStore
      [1, 2, 3, 4, 5, 6, 7, 8, 9, 10]) = 10 ∧
    (careerRunOf (fetchPlayerCareer provFailI fwNever psStore
      [1, 2, 3, 4, 5, 6, 7, 8, 9, 10])).stopped = .completed ∧
    pbpCallCount (fetchPbpData 1 provFailS fwNever gpStore
      ["a", "b", "c", "d", "e", "f", "g", "h", "i", "j"]) = 1 :=
  ⟨by decide, by decide, by decide⟩

/-- C3 (amended): the error-budget stop applies to `fetch_pbp_data`
only: with a provider failing every call and more than N pending
identities it persists zero rows, issues exactly N remote calls, counts
N errors, and stops cleanly as a budget stop with no exception raised.
`fetch_player_career` counts errors but applies no budget: under the
same failing provider it attempts every pending identity (M calls for M
pending identities), still persisting zero rows and finishing without
an exception. -/
theorem claim3_error_budget_amended :
    (∀ (N : Nat) (prov : String → ProviderResult) (fw : Table → Bool) (s : Store)
      (gids : List String) (R : Table),
      findTable s "game_pbp" = some R →
      (∀ g, prov g = .err) →
      N < (pbpDelta (pbpExisting R) gids).length →
      ∃ r, fetchPbpData N prov fw s gids = .ok r ∧
        r.store = s ∧ countCalls r.trace = N ∧ r.errorCount = N ∧
        r.stopped = .budget ∧ r.raised = none) ∧
    (∀ (prov : Int → ProviderResult) (fw : Table → Bool) (s : Store)
      (ids : List Int) (R : Table),
      findTable s "player_stats" = some R →
      (∀ i, prov i = .err) →
      ∃ r, fetchPlayerCareer prov fw s ids = .ok r ∧
        r.store = s ∧
        countCalls r.trace = (careerDelta (careerExisting R) ids).length ∧
        r.errorCount = (careerDelta (careerExisting R) ids).length ∧
        r.stopped = .completed) := by
  constructor
  · intro N prov fw s gids R hT hall hN
    have hg : gids ≠ [] := by
      intro h
      subst h
      simp [pbpDelta] at hN
    have hE : getExistingIds s "game_pbp" "gameId" = .ok (pbpExisting R) := by
      simp [getExistingIds, hT, pbpExisting]
    have hout : pbpLoop N prov (pbpDelta (pbpExisting R) gids) [] 0 []
        = ⟨[], N, pauseCalls ((pbpDelta (pbpExisting R) gids).take N), .budget⟩ := by
      by_cases hN0 : N = 0
      · subst hN0
        cases htodo : pbpDelta (pbpExisting R) gids with
        | nil => rw [htodo] at hN; simp at hN
        | cons g rest =>
          simp [pbpLoop, pauseCalls]
      · have := pbpLoop_allFail N prov (pbpDelta (pbpExisting R) gids) [] 0 []
          (fun x _ => hall x) (Nat.pos_of_ne_zero hN0) (by simpa using hN)
        simpa using this
    refine ⟨⟨s, N, [], pauseCalls ((pbpDelta (pbpExisting R) gids).take N), .budget, none⟩,
      ?_, rfl, ?_, rfl, rfl, rfl⟩
    · simp [fetchPbpData, hg, hE, hout]
    · simp [countCalls, callIds_pauseCalls, List.length_take]
      omega
  · intro prov fw s ids R hT hall
    have hni : ∀ i ∈ careerDelta (careerExisting R) ids, prov i ≠ .interrupt := by
      intro i _
      rw [hall i]
      simp
    obtain ⟨r, hr, h1, h2, h3, h4⟩ := fetchPlayerCareer_spec prov fw s ids R hT hni
    have hP : careerPersisted prov fw (careerDelta (careerExisting R) ids) = [] := by
      have h0 : (careerDelta (careerExisting R) ids).filterMap (fun i =>
          match prov i with
          | .ok df => if df = [] then none else if fw df then none else some df
          | _ => none) = [] :=
        List.filterMap_eq_nil_iff.mpr (fun a _ => by rw [hall a])
      simp [careerPersisted, h0]
    refine ⟨r, hr, ?_, ?_, ?_, h4⟩
    · rw [h1, hP, List.append_nil]
      exact setTable_self s _ R hT
    · rw [countCalls, h2, List.length_map]
    · rw [h3]
      exact List.countP_eq_length.mpr (fun i _ => by simp [careerItemFails, hall i])

theorem claim3_error_budget_amended_w :
    (∃ r, fetchPbpData 1 provFailS fwNever gpStore ["a", "b", "c"] = .ok r ∧
      r.store = gpStore ∧ countCalls r.trace = 1 ∧ r.errorCount = 1 ∧
      r.stopped = .budget ∧ r.raised = none) ∧
    (∃ r, fetchPlayerCareer provFailI fwNever psStore [1, 2] = .ok r ∧
      r.store = psStore ∧
      countCalls r.trace = (careerDelta (careerExisting []) [1, 2]).length ∧
      r.errorCount = (careerDelta (careerExisting []) [1, 2]).length ∧
      r.stopped = .completed) :=
  ⟨claim3_error_budget_amended.1 1 provFailS fwNever gpStore ["a", "b", "c"] []
      rfl (fun _ => rfl) (by decide),
    claim3_error_budget_amended.2 provFailI fwNever psStore [1, 2] []
      rfl (fun _ => rfl)⟩

theorem claim5_cex :
    pbpRaisedOf (fetchPbpData 5 provOkG fwAlways gpStore ["g1"]) = some .sqlite3Error := by
  decide

/-- C5 (amended): in the per-item loop of `fetch_player_career` a
store-write failure for one work item is caught at the item boundary
and counted in the run's error count, items after the failing one are
still processed, and tables other than the target are unaffected.  In
`fetch_pbp_data`, however, the single batch write at the end of the run
is not inside a try block: its failure is raised to the caller (other
tables and the target's prior rows are still unaffected). -/
theorem claim5_write_containment_amended :
    (∀ (prov : Int → ProviderResult) (fw : Table → Bool) (s : Store)
      (ids : List Int) (R : Table),
      findTable s "player_stats" = some R →
      (∀ i, prov i ≠ .interrupt) →
      ∃ r, fetchPlayerCareer prov fw s ids = .ok r ∧
        countCalls r.trace = (careerDelta (careerExisting R) ids).length ∧
        r.errorCount = (careerDelta (careerExisting R) ids).countP
          (careerItemFails prov fw) ∧
        (∀ n, n ≠ "player_stats" → findTable r.store n = findTable s n)) ∧
    (∀ (N : Nat) (prov : String → ProviderResult) (fw : Table → Bool) (s : Store)
      (gids : List String) (R : Table) (r : PbpRun),
      findTable s "game_pbp" = some R →
      fetchPbpData N prov fw s gids = .ok r →
      (∀ n, n ≠ "game_pbp" → findTable r.store n = findTable s n) ∧
      (r.buffered ≠ [] → fw r.buffered.flatten = true →
        r.raised = some .sqlite3Error ∧ findTable r.store "game_pbp" = some R)) := by
  constructor
  · intro prov fw s ids R hT hni
    obtain ⟨r, hr, h1, h2, h3, _⟩ := fetchPlayerCareer_spec prov fw s ids R hT
      (fun i _ => hni i)
    refine ⟨r, hr, ?_, h3, ?_⟩
    · rw [countCalls, h2, List.length_map]
    · intro n hn
      rw [h1]
      exact setTable_find_other s _ n _ hn
  · intro N prov fw s gids R r hT hr
    obtain ⟨r2, k, hfr, hk, hb, herr, hcall, hstop, h0, h1, h2⟩ :=
      fetchPbpData_spec N prov fw s gids R hT
    rw [hr] at hfr
    obtain rfl := Except.ok.inj hfr
    constructor
    · intro n hn
      by_cases hbuf : r.buffered = []
      · rw [(h0 hbuf).1]
      · cases hfw : fw r.buffered.flatten
        · rw [(h1 hbuf hfw).1]
          exact setTable_find_other s _ n _ hn
        · rw [(h2 hbuf hfw).1]
    · intro hbuf hfw
      obtain ⟨hs, hraised⟩ := h2 hbuf hfw
      exact ⟨hraised, hs ▸ hT⟩

theorem claim5_write_containment_amended_w :
    (∃ r, fetchPlayerCareer provFailI fwAlways psStore [3] = .ok r ∧
      countCalls r.trace = (careerDelta (careerExisting []) [3]).length ∧
      r.errorCount = (careerDelta (careerExisting []) [3]).countP
        (careerItemFails provFailI fwAlways) ∧
      (∀ n, n ≠ "player_stats" → findTable r.store n = findTable psStore n)) ∧
    ((∀ n, n ≠ "game_pbp" →
        findTable (pbpRunOf (fetchPbpData 5 provOkG fwAlways gpStore ["g1"])).store n
          = findTable gpStore n) ∧
      ((pbpRunOf (fetchPbpData 5 provOkG fwAlways gpStore ["g1"])).buffered ≠ [] →
        fwAlways (pbpRunOf (fetchPbpData 5 provOkG fwAlways gpStore ["g1"])).buffered.flatten
          = true →
        (pbpRunOf (fetchPbpData 5 provOkG fwAlways gpStore ["g1"])).raised
          = some .sqlite3Error ∧
        findTable (pbpRunOf (fetchPbpData 5 provOkG fwAlways gpStore ["g1"])).store
          "game_pbp" = some [])) :=
  ⟨claim5_write_containment_amended.1 provFailI fwAlways psStore [3] [] rfl
      (fun i => by simp [provFailI]),
    claim5_write_containment_amended.2 5 provOkG fwAlways gpStore ["g1"] []
      (pbpRunOf (fetchPbpData 5 provOkG fwAlways gpStore ["g1"])) rfl rfl⟩

theorem claim6_cex :
    careerPacedOf (fetchPlayerCareer provC6 fwNever psStore [1, 2]) = false ∧
    careerCallCount (fetchPlayerCareer provC6 fwNever psStore [1, 2]) = 2 :=
  ⟨by decide, by decide⟩

/-- C6 (amended): in `fetch_pbp_data` (where `_pause` runs at the top of
every loop iteration) a pacing delay precedes every remote call, so the
configured minimum interval elapses between any two consecutive calls
regardless of the earlier call's outcome.  In `fetch_player_career` the
pause runs only after a fully successful item, so its trace is paced
whenever every attempted item succeeds — but after a failed call the
next call is issued with no intervening pause. -/
theorem claim6_pacing_amended :
    (∀ (N : Nat) (prov : String → ProviderResult) (fw : Table → Bool) (s : Store)
      (gids : List String) (r : PbpRun),
      fetchPbpData N prov fw s gids = .ok r → paced r.trace = true) ∧
    (∀ (prov : Int → ProviderResult) (fw : Table → Bool) (s : Store)
      (ids : List Int) (r : CareerRun),
      (∀ i, ∃ df, prov i = .ok df ∧ (df = [] ∨ fw df = false)) →
      fetchPlayerCareer prov fw s ids = .ok r → paced r.trace = true) := by
  constructor
  · intro N prov fw s gids r hr
    by_cases hg : gids = []
    · subst hg
      rw [show fetchPbpData N prov fw s [] = .ok ⟨s, 0, [], [], .completed, none⟩
        from by simp [fetchPbpData]] at hr
      obtain rfl := Except.ok.inj hr
      rfl
    · cases hE : getExistingIds s "game_pbp" "gameId" with
      | error e =>
        rw [fetchPbpData, if_neg hg] at hr
        rw [hE] at hr
        simp at hr
      | ok E =>
        simp only [fetchPbpData, if_neg hg, hE] at hr
        by_cases hb : (pbpLoop N prov (pbpDelta E gids) [] 0 []).buffered = []
        · rw [if_pos hb] at hr
          obtain rfl := Except.ok.inj hr
          exact pbpLoop_paced N prov (pbpDelta E gids) [] 0 [] rfl
        · rw [if_neg hb] at hr
          match hsv : saveToSqlite fw s
              (pbpLoop N prov (pbpDelta E gids) [] 0 []).buffered.flatten
              "game" "pbp" .append with
          | (s1, e) =>
            rw [hsv] at hr
            obtain rfl := Except.ok.inj hr
            exact pbpLoop_paced N prov (pbpDelta E gids) [] 0 [] rfl
  · intro prov fw s ids r hall hr
    cases hE : getExistingIds s "player_stats" "PLAYER_ID" with
    | error e =>
      rw [fetchPlayerCareer, hE] at hr
      simp at hr
    | ok E =>
      simp only [fetchPlayerCareer, hE] at hr
      by_cases hd : careerDelta E ids = []
      · rw [if_pos hd] at hr
        obtain rfl := Except.ok.inj hr
        rfl
      · rw [if_neg hd] at hr
        obtain rfl := Except.ok.inj hr
        exact careerLoop_paced_success prov fw (careerDelta E ids) s 0 0 []
          (fun i _ => hall i) rfl rfl

theorem claim6_pacing_amended_w :
    paced (pbpRunOf (fetchPbpData 3 provFailS fwNever gpStore ["a", "b"])).trace = true ∧
    paced (careerRunOf (fetchPlayerCareer provOkP fwNever psStore [5, 6])).trace = true :=
  ⟨claim6_pacing_amended.1 3 provFailS fwNever gpStore ["a", "b"]
      (pbpRunOf (fetchPbpData 3 provFailS fwNever gpStore ["a", "b"])) rfl,
    claim6_pacing_amended.2 provOkP fwNever psStore [5, 6]
      (careerRunOf (fetchPlayerCareer provOkP fwNever psStore [5, 6]))
      (fun i => ⟨[rowP i], rfl, Or.inr rfl⟩) rfl⟩

/-- A remote provider for the spec scenario: game "001" has one
play-by-play row, every other game returns an empty payload. -/
def provC9 : String → ProviderResult := fun g =>
  if g = "001" then .ok [rowG "001"] else .ok []

/-- C9: batch aggregation in `fetch_pbp_data` — only non-empty per-game
payloads are buffered (an empty payload is skipped and not counted as an
error), the single store write at the end appends the concatenation of
the buffered payloads in fetch order, and if nothing was buffered the
store is untouched. -/
theorem claim9_batch_aggregation :
    ∀ (N : Nat) (prov : String → ProviderResult) (fw : Table → Bool) (s : Store)
      (gids : List String) (R : Table) (r : PbpRun),
      findTable s "game_pbp" = some R →
      fetchPbpData N prov fw s gids = .ok r →
      ∃ k, k ≤ (pbpDelta (pbpExisting R) gids).length ∧
        r.buffered = pbpBuffer prov ((pbpDelta (pbpExisting R) gids).take k) ∧
        r.errorCount = ((pbpDelta (pbpExisting R) gids).take k).countP
          (fun g => decide (prov g = .err)) ∧
        (r.buffered = [] → r.store = s) ∧
        (r.buffered ≠ [] → fw r.buffered.flatten = false →
          findTable r.store "game_pbp" = some (R ++ r.buffered.flatten)) := by
  intro N prov fw s gids R r hT hr
  obtain ⟨r2, k, hfr, hk, hb, herr, hcall, hstop, h0, h1, h2⟩ :=
    fetchPbpData_spec N prov fw s gids R hT
  rw [hr] at hfr
  obtain rfl := Except.ok.inj hfr
  refine ⟨k, hk, hb, herr, fun hbuf => (h0 hbuf).1, ?_⟩
  intro hbuf hfw
  rw [(h1 hbuf hfw).1]
  exact setTable_find_self _ _ _

theorem claim9_batch_aggregation_w :
    ∃ k, k ≤ (pbpDelta (pbpExisting []) ["001", "002"]).length ∧
      (pbpRunOf (fetchPbpData 5 provC9 fwNever gpStore ["001", "002"])).buffered
        = pbpBuffer provC9 ((pbpDelta (pbpExisting []) ["001", "002"]).take k) ∧
      (pbpRunOf (fetchPbpData 5 provC9 fwNever gpStore ["001", "002"])).errorCount
        = ((pbpDelta (pbpExisting []) ["001", "002"]).take k).countP
          (fun g => decide (provC9 g = .err)) ∧
      ((pbpRunOf (fetchPbpData 5 provC9 fwNever gpStore ["001", "002"])).buffered = [] →
        (pbpRunOf (fetchPbpData 5 provC9 fwNever gpStore ["001", "002"])).store = gpStore) ∧
      ((pbpRunOf (fetchPbpData 5 provC9 fwNever gpStore ["001", "002"])).buffered ≠ [] →
        fwNever (pbpRunOf
          (fetchPbpData 5 provC9 fwNever gpStore ["001", "002"])).buffered.flatten = false →
        findTable (pbpRunOf (fetchPbpData 5 provC9 fwNever gpStore ["001", "002"])).store
          "game_pbp"
          = some ([] ++ (pbpRunOf
              (fetchPbpData 5 provC9 fwNever gpStore ["001", "002"])).buffered.flatten)) :=
  claim9_batch_aggregation 5 provC9 fwNever gpStore ["001", "002"] []
    (pbpRunOf (fetchPbpData 5 provC9 fwNever gpStore ["001", "002"])) rfl rfl

/-- C10: payloads already buffered when `fetch_pbp_data` stops early
(error budget or `KeyboardInterrupt`) are still concatenated and
appended to `game_pbp` before the function returns; an early stop
discards only not-yet-fetched work items. -/
theorem claim10_early_stop_keeps_buffer :
    ∀ (N : Nat) (prov : String → ProviderResult) (fw : Table → Bool) (s : Store)
      (gids : List String) (R : Table) (r : PbpRun),
      findTable s "game_pbp" = some R →
      fetchPbpData N prov fw s gids = .ok r →
      r.stopped ≠ .completed →
      r.buffered ≠ [] → fw r.buffered.flatten = false →
      findTable r.store "game_pbp" = some (R ++ r.buffered.flatten) ∧
      r.raised = none := by
  intro N prov fw s gids R r hT hr _ hbuf hfw
  obtain ⟨r2, k, hfr, hk, hb, herr, hcall, hstop, h0, h1, h2⟩ :=
    fetchPbpData_spec N prov fw s gids R hT
  rw [hr] at hfr
  obtain rfl := Except.ok.inj hfr
  obtain ⟨hs, hraised⟩ := h1 hbuf hfw
  exact ⟨hs ▸ setTable_find_self _ _ _, hraised⟩

theorem claim10_early_stop_keeps_buffer_w :
    findTable (pbpRunOf (fetchPbpData 1 provC10 fwNever gpStore ["a", "b", "c"])).store
      "game_pbp"
      = some ([] ++ (pbpRunOf
          (fetchPbpData 1 provC10 fwNever gpStore ["a", "b", "c"])).buffered.flatten) ∧
    (pbpRunOf (fetchPbpData 1 provC10 fwNever gpStore ["a", "b", "c"])).raised = none :=
  claim10_early_stop_keeps_buffer 1 provC10 fwNever gpStore ["a", "b", "c"] []
    (pbpRunOf (fetchPbpData 1 provC10 fwNever gpStore ["a", "b", "c"]))
    rfl rfl (by decide) (by decide) (by decide)

theorem claim2_cex :
    careerStoreOf (fetchPlayerCareer provFailI fwNever psStore [7]) = some psStore ∧
    careerCallCount (fetchPlayerCareer provFailI fwNever psStore [7]) = 1 :=
  ⟨by decide, by decide⟩

theorem mem_careerExisting (R : Table) (v : SqlValue) :
    v ∈ careerExisting R ↔ v ∈ columnValues R "PLAYER_ID" :=
  List.mem_dedup

theorem mem_pbpExisting (R : Table) (v : SqlValue) :
    v ∈ pbpExisting R ↔ v ∈ columnValues R "gameId" :=
  List.mem_dedup

theorem pbpBuffer_eq_nil_iff (prov : String → ProviderResult) (l : List String) :
    pbpBuffer prov l = [] ↔ ∀ g ∈ l, pbpNonBuffering prov g = true := by
  rw [pbpBuffer, List.filterMap_eq_nil_iff]
  constructor
  · intro h g hg
    have hgn := h g hg
    cases hp : prov g with
    | ok df =>
      rw [hp] at hgn
      by_cases hdf : df = []
      · simp [pbpNonBuffering, hp, hdf]
      · simp [hdf] at hgn
    | err => simp [pbpNonBuffering, hp]
    | interrupt => simp [pbpNonBuffering, hp]
  · intro h g hg
    have hgn := h g hg
    cases hp : prov g with
    | ok df =>
      simp only [pbpNonBuffering, hp, decide_eq_true_eq] at hgn
      simp [hp, hgn]
    | err => simp [hp]
    | interrupt => simp [hp]

theorem career_idempotent (prov : Int → ProviderResult) (fw : Table → Bool)
    (s : Store) (ids : List Int) (R : Table) (r1 r2 : CareerRun)
    (hT : findTable s "player_stats" = some R)
    (hni : ∀ i, prov i ≠ .interrupt)
    (hfaith : ∀ i df, prov i = .ok df → df ≠ [] →
      SqlValue.int i ∈ columnValues df "PLAYER_ID")
    (hr1 : fetchPlayerCareer prov fw s ids = .ok r1)
    (hr2 : fetchPlayerCareer prov fw r1.store ids = .ok r2) :
    r2.store = r1.store ∧
    ((∀ pid ∈ ids, SqlValue.int pid
        ∈ careerExisting ((findTable r1.store "player_stats").getD [])) →
      countCalls r2.trace = 0) := by
  obtain ⟨r1x, hr1x, hs1, _, _, _⟩ :=
    fetchPlayerCareer_spec prov fw s ids R hT (fun i _ => hni i)
  rw [hr1] at hr1x
  obtain rfl := Except.ok.inj hr1x
  have hT1 : findTable r1.store "player_stats"
      = some (R ++ careerPersisted prov fw (careerDelta (careerExisting R) ids)) := by
    rw [hs1]
    exact setTable_find_self _ _ _
  have hP2 : careerPersisted prov fw
      (careerDelta (careerExisting
        (R ++ careerPersisted prov fw (careerDelta (careerExisting R) ids))) ids) = [] := by
    have h0 : (careerDelta (careerExisting
        (R ++ careerPersisted prov fw (careerDelta (careerExisting R) ids))) ids).filterMap
        (fun i => match prov i with
          | .ok df => if df = [] then none else if fw df then none else some df
          | _ => none) = [] := by
      refine List.filterMap_eq_nil_iff.mpr ?_
      intro a ha
      obtain ⟨hmem, hnot⟩ := (mem_careerDelta _ ids a).mp ha
      cases hpa : prov a with
      | err => simp
      | interrupt => simp
      | ok df =>
        by_cases hdf : df = []
        · simp [hdf]
        · by_cases hfwd : fw df
          · simp [hdf, hfwd]
          · exfalso
            have hnotR : SqlValue.int a ∉ careerExisting R := by
              intro hin
              refine hnot ?_
              rw [mem_careerExisting, columnValues_append]
              exact List.mem_append_left _ ((mem_careerExisting R _).mp hin)
            have had1 : a ∈ careerDelta (careerExisting R) ids :=
              (mem_careerDelta _ _ _).mpr ⟨hmem, hnotR⟩
            have hdf1 : df ∈ (careerDelta (careerExisting R) ids).filterMap
                (fun i => match prov i with
                  | .ok df => if df = [] then none else if fw df then none else some df
                  | _ => none) :=
              List.mem_filterMap.mpr ⟨a, had1, by simp [hpa, hdf, hfwd]⟩
            have hv := hfaith a df hpa hdf
            refine hnot ?_
            rw [mem_careerExisting, columnValues_append]
            refine List.mem_append_right _ ?_
            exact columnValues_mem_flatten _ df _ hdf1 _ hv
    rw [show careerPersisted prov fw
        (careerDelta (careerExisting
          (R ++ careerPersisted prov fw (careerDelta (careerExisting R) ids))) ids)
      = ((careerDelta (careerExisting
          (R ++ careerPersisted prov fw (careerDelta (careerExisting R) ids))) ids).filterMap
        (fun i => match prov i with
          | .ok df => if df = [] then none else if fw df then none else some df
          | _ => none)).flatten from rfl, h0]
    rfl
  obtain ⟨r2x, hr2x, hs2, hc2, _, _⟩ := fetchPlayerCareer_spec prov fw r1.store ids
    (R ++ careerPersisted prov fw (careerDelta (careerExisting R) ids)) hT1
    (fun i _ => hni i)
  rw [hr2] at hr2x
  obtain rfl := Except.ok.inj hr2x
  constructor
  · rw [hs2, hP2, List.append_nil]
    exact setTable_self _ _ _ hT1
  · intro hallmem
    have hmem1 : ∀ pid ∈ ids, SqlValue.int pid ∈ careerExisting
        (R ++ careerPersisted prov fw (careerDelta (careerExisting R) ids)) := by
      intro pid hpid
      have := hallmem pid hpid
      rw [hT1] at this
      exact this
    have hd2 : careerDelta (careerExisting
        (R ++ careerPersisted prov fw (careerDelta (careerExisting R) ids))) ids = [] := by
      refine List.filter_eq_nil_iff.mpr ?_
      intro a ha
      simp [hmem1 a ha]
    rw [countCalls, hc2, hd2]
    rfl

theorem pbp_idempotent (N : Nat) (prov : String → ProviderResult) (fw : Table → Bool)
    (s : Store) (gids : List String) (R : Table) (r1 r2 : PbpRun)
    (hT : findTable s "game_pbp" = some R)
    (hfaith : ∀ g df, prov g = .ok df → df ≠ [] →
      SqlValue.text g ∈ columnValues df "gameId")
    (hr1 : fetchPbpData N prov fw s gids = .ok r1)
    (hcomp : r1.stopped = .completed)
    (hraise : r1.raised = none)
    (hr2 : fetchPbpData N prov fw r1.store gids = .ok r2) :
    r2.store = r1.store ∧
    ((∀ g ∈ gids, SqlValue.text g
        ∈ pbpExisting ((findTable r1.store "game_pbp").getD [])) →
      countCalls r2.trace = 0) := by
  obtain ⟨r1x, k1, hfr1, hk1, hb1, _, _, hstop1, h0, h1, h2⟩ :=
    fetchPbpData_spec N prov fw s gids R hT
  rw [hr1] at hfr1
  obtain rfl := Except.ok.inj hfr1
  have hk1len : k1 = (pbpDelta (pbpExisting R) gids).length := hstop1 hcomp
  have hbfull : r1.buffered = pbpBuffer prov (pbpDelta (pbpExisting R) gids) := by
    rw [hb1, hk1len, List.take_length]
  have key : ∃ T1, findTable r1.store "game_pbp" = some T1 ∧
      (∀ g ∈ pbpDelta (pbpExisting T1) gids, pbpNonBuffering prov g = true) := by
    by_cases hbuf : r1.buffered = []
    · obtain ⟨hs1, _⟩ := h0 hbuf
      refine ⟨R, by rw [hs1]; exact hT, ?_⟩
      exact (pbpBuffer_eq_nil_iff prov _).mp (by rw [← hbfull]; exact hbuf)
    · have hfw : fw r1.buffered.flatten = false := by
        cases hc : fw r1.buffered.flatten with
        | false => rfl
        | true =>
          exfalso
          obtain ⟨_, hrs⟩ := h2 hbuf hc
          rw [hraise] at hrs
          simp at hrs
      obtain ⟨hs1, _⟩ := h1 hbuf hfw
      refine ⟨R ++ r1.buffered.flatten, by rw [hs1]; exact setTable_find_self _ _ _, ?_⟩
      intro g hg
      obtain ⟨hgids, hnot⟩ := (mem_pbpDelta _ _ _).mp hg
      cases hp : prov g with
      | err => simp [pbpNonBuffering, hp]
      | interrupt => simp [pbpNonBuffering, hp]
      | ok df =>
        by_cases hdf : df = []
        · simp [pbpNonBuffering, hp, hdf]
        · exfalso
          have hnotR : SqlValue.text g ∉ pbpExisting R := by
            intro hin
            refine hnot ?_
            rw [mem_pbpExisting, columnValues_append]
            exact List.mem_append_left _ ((mem_pbpExisting R _).mp hin)
          have hgd1 : g ∈ pbpDelta (pbpExisting R) gids :=
            (mem_pbpDelta _ _ _).mpr ⟨hgids, hnotR⟩
          have hdfb : df ∈ r1.buffered := by
            rw [hbfull]
            exact List.mem_filterMap.mpr ⟨g, hgd1, by simp [hp, hdf]⟩
          have hv := hfaith g df hp hdf
          refine hnot ?_
          rw [mem_pbpExisting, columnValues_append]
          exact List.mem_append_right _ (columnValues_mem_flatten _ df _ hdfb _ hv)
  obtain ⟨T1, hT1, hnb⟩ := key
  obtain ⟨r2x, k2, hfr2, hk2, hb2, _, hcall2, _, h0b, h1b, h2b⟩ :=
    fetchPbpData_spec N prov fw r1.store gids T1 hT1
  rw [hr2] at hfr2
  obtain rfl := Except.ok.inj hfr2
  have hbuf2 : r2.buffered = [] := by
    rw [hb2]
    refine (pbpBuffer_eq_nil_iff prov _).mpr ?_
    intro g hg
    exact hnb g ((List.take_prefix k2 _).sublist.subset hg)
  constructor
  · exact (h0b hbuf2).1
  · intro hallmem
    have hmem1 : ∀ g ∈ gids, SqlValue.text g ∈ pbpExisting T1 := by
      intro g hgg
      have := hallmem g hgg
      rw [hT1] at this
      exact this
    have hd2 : pbpDelta (pbpExisting T1) gids = [] := by
      refine List.filter_eq_nil_iff.mpr ?_
      intro a ha
      simp [hmem1 a ha]
    simp [countCalls, hcall2, hd2]

/-- C2 (amended): with a deterministic provider that is never
interrupted and whose successful non-empty payloads carry their own
identity in the table's identity column, re-running a fetch operation
with identical inputs leaves the append-mode table exactly as the first
run left it (for `fetch_pbp_data` provided the first run completed
without an early stop and without an escaped write error); and when in
addition every requested identity is present in the table after the
first run, the second run issues zero remote calls (the dedup filter
yields an empty delta).  The unconditional zero-call conclusion of the
original claim fails when some first-run call did not persist its
identity. -/
theorem claim2_idempotence_amended :
    (∀ (prov : Int → ProviderResult) (fw : Table → Bool) (s : Store)
      (ids : List Int) (R : Table) (r1 r2 : CareerRun),
      findTable s "player_stats" = some R →
      (∀ i, prov i ≠ .interrupt) →
      (∀ i df, prov i = .ok df → df ≠ [] →
        SqlValue.int i ∈ columnValues df "PLAYER_ID") →
      fetchPlayerCareer prov fw s ids = .ok r1 →
      fetchPlayerCareer prov fw r1.store ids = .ok r2 →
      r2.store = r1.store ∧
      ((∀ pid ∈ ids, SqlValue.int pid
          ∈ careerExisting ((findTable r1.store "player_stats").getD [])) →
        countCalls r2.trace = 0)) ∧
    (∀ (N : Nat) (prov : String → ProviderResult) (fw : Table → Bool) (s : Store)
      (gids : List String) (R : Table) (r1 r2 : PbpRun),
      findTable s "game_pbp" = some R →
      (∀ g df, prov g = .ok df → df ≠ [] →
        SqlValue.text g ∈ columnValues df "gameId") →
      fetchPbpData N prov fw s gids = .ok r1 →
      r1.stopped = .completed → r1.raised = none →
      fetchPbpData N prov fw r1.store gids = .ok r2 →
      r2.store = r1.store ∧
      ((∀ g ∈ gids, SqlValue.text g
          ∈ pbpExisting ((findTable r1.store "game_pbp").getD [])) →
        countCalls r2.trace = 0)) :=
  ⟨fun prov fw s ids R r1 r2 hT hni hfaith hr1 hr2 =>
      career_idempotent prov fw s ids R r1 r2 hT hni hfaith hr1 hr2,
    fun N prov fw s gids R r1 r2 hT hfaith hr1 hc hra hr2 =>
      pbp_idempotent N prov fw s gids R r1 r2 hT hfaith hr1 hc hra hr2⟩

theorem claim2_idempotence_amended_w :
    ((careerRunOf (fetchPlayerCareer provOkP fwNever
        (careerRunOf (fetchPlayerCareer provOkP fwNever psStore [2544, 201939])).store
        [2544, 201939])).store
      = (careerRunOf (fetchPlayerCareer provOkP fwNever psStore [2544, 201939])).store ∧
      ((∀ pid ∈ [(2544 : Int), 201939], SqlValue.int pid
          ∈ careerExisting ((findTable (careerRunOf (fetchPlayerCareer provOkP fwNever
              psStore [2544, 201939])).store "player_stats").getD [])) →
        countCalls (careerRunOf (fetchPlayerCareer provOkP fwNever
          (careerRunOf (fetchPlayerCareer provOkP fwNever psStore [2544, 201939])).store
          [2544, 201939])).trace = 0)) ∧
    ((pbpRunOf (fetchPbpData 5 provOkG fwNever
        (pbpRunOf (fetchPbpData 5 provOkG fwNever gpStore ["001"])).store
        ["001"])).store
      = (pbpRunOf (fetchPbpData 5 provOkG fwNever gpStore ["001"])).store ∧
      ((∀ g ∈ ["001"], SqlValue.text g
          ∈ pbpExisting ((findTable (pbpRunOf (fetchPbpData 5 provOkG fwNever
              gpStore ["001"])).store "game_pbp").getD [])) →
        countCalls (pbpRunOf (fetchPbpData 5 provOkG fwNever
          (pbpRunOf (fetchPbpData 5 provOkG fwNever gpStore ["001"])).store
          ["001"])).trace = 0)) :=
  ⟨claim2_idempotence_amended.1 provOkP fwNever psStore [2544, 201939] []
      (careerRunOf (fetchPlayerCareer provOkP fwNever psStore [2544, 201939]))
      (careerRunOf (fetchPlayerCareer provOkP fwNever
        (careerRunOf (fetchPlayerCareer provOkP fwNever psStore [2544, 201939])).store
        [2544, 201939]))
      rfl (fun i => by simp [provOkP])
      (fun i df h _ => by
        simp only [provOkP, ProviderResult.ok.injEq] at h
        subst h
        simp [columnValues, rowP])
      rfl rfl,
    claim2_idempotence_amended.2 5 provOkG fwNever gpStore ["001"] []
      (pbpRunOf (fetchPbpData 5 provOkG fwNever gpStore ["001"]))
      (pbpRunOf (fetchPbpData 5 provOkG fwNever
        (pbpRunOf (fetchPbpData 5 provOkG fwNever gpStore ["001"])).store ["001"]))
      rfl
      (fun g df h _ => by
        simp only [provOkG, ProviderResult.ok.injEq] at h
        subst h
        simp [columnValues, rowG])
      rfl (by decide) (by decide) rfl⟩
